import Mathlib

/-!
Shallow embedding of the receipt OCR pipeline (`parseReceiptImage` and
`preprocessImage` from the repository's OCR service module, the version at
`src/unnamed/part_000`, which is the one the specification describes).

Strings are modelled as `List Char`, JavaScript numbers as `ℚ`.
The regex `^(.+?)\s+([0-9]{1,3}(?:[.,\s]?[0-9]{3})*[.,][0-9]{2})\s*$` is
embedded as an executable backtracking matcher that reproduces the JS
engine's lazy/greedy alternative order for this particular pattern.
-/

namespace Receipt

/-- JavaScript `\s` character class (whitespace as used by `trim`, `\s` in
regexes and `.replace(/\s/g,'')`). -/
def jsWs (c : Char) : Bool :=
  c = ' ' || c = '\t' || c = '\n' || c = '\r' || c.val = 11 || c.val = 12 ||
  c.val = 0xa0 || c.val = 0x1680 || (0x2000 ≤ c.val && c.val ≤ 0x200a) ||
  c.val = 0x2028 || c.val = 0x2029 || c.val = 0x202f || c.val = 0x205f ||
  c.val = 0x3000 || c.val = 0xfeff

/-- ASCII digit, the `[0-9]` class of the price regex. -/
def isDigitC (c : Char) : Bool := '0' ≤ c && c ≤ '9'

/-- The `[.,\s]` class: a thousands-group separator inside the price token. -/
def isSepC (c : Char) : Bool := c = '.' || c = ',' || jsWs c

/-- The `[.,]` class: the separator right before the two cents digits. -/
def isDecSepC (c : Char) : Bool := c = '.' || c = ','

/-- Every character of the list is JS whitespace (`\s*$` on the remainder). -/
def allWsB (l : List Char) : Bool := l.all jsWs

/-- JavaScript `String.prototype.trim`. -/
def trimL (l : List Char) : List Char :=
  ((l.dropWhile jsWs).reverse.dropWhile jsWs).reverse

/-- Strict left-biased choice between two alternatives of a backtracking
regex matcher: the second alternative is tried only when the first fails. -/
def orE (a b : Option α) : Option α :=
  match a with
  | some x => some x
  | none => b

/--
Matcher for the part of the price token after the 1–3 leading digits:
`(?:[.,\s]?[0-9]{3})*[.,][0-9]{2}` followed by `\s*$`.  Returns the
characters consumed by the token part and the (all-whitespace) remainder.
Alternatives are ordered as the JS engine tries them: another group with its
optional separator present, another group without separator, then the final
decimal separator and two digits.  `fuel` only forces structural recursion;
every recursive call consumes at least three characters, so any
`fuel ≥ length` is enough.
-/
def tokTailF : Nat → List Char → Option (List Char × List Char)
  | _, [c, d1, d2] =>
    if isDecSepC c && isDigitC d1 && isDigitC d2 then some ([c, d1, d2], []) else none
  | fuel + 1, c :: d1 :: d2 :: d3 :: rest =>
    orE
      (if isSepC c && isDigitC d1 && isDigitC d2 && isDigitC d3 then
        Option.map (fun p => (c :: d1 :: d2 :: d3 :: p.1, p.2)) (tokTailF fuel rest)
      else none)
      (orE
        (if isDigitC c && isDigitC d1 && isDigitC d2 then
          Option.map (fun p => (c :: d1 :: d2 :: p.1, p.2)) (tokTailF fuel (d3 :: rest))
        else none)
        (if isDecSepC c && isDigitC d1 && isDigitC d2 && allWsB (d3 :: rest) then
          some ([c, d1, d2], d3 :: rest)
        else none))
  | _, _ => none

/-- Token tail matcher `tokTailF` run with always-sufficient fuel. -/
def tokTail (s : List Char) : Option (List Char × List Char) :=
  tokTailF s.length s

/--
Matcher for the whole price token `[0-9]{1,3}(?:[.,\s]?[0-9]{3})*[.,][0-9]{2}`
followed by `\s*$`: greedy 1–3 leading digits (3 tried first), then `tokTail`.
-/
def tokMatch (s : List Char) : Option (List Char × List Char) :=
  orE
    (match s with
     | d1 :: d2 :: d3 :: rest =>
       if isDigitC d1 && isDigitC d2 && isDigitC d3 then
         Option.map (fun p => (d1 :: d2 :: d3 :: p.1, p.2)) (tokTail rest)
       else none
     | _ => none)
    (orE
      (match s with
       | d1 :: d2 :: rest =>
         if isDigitC d1 && isDigitC d2 then
           Option.map (fun p => (d1 :: d2 :: p.1, p.2)) (tokTail rest)
         else none
       | _ => none)
      (match s with
       | d1 :: rest =>
         if isDigitC d1 then Option.map (fun p => (d1 :: p.1, p.2)) (tokTail rest) else none
       | _ => none))

/-- After the lazy name capture stops, the regex needs `\s+` then the price
token: only the maximal whitespace run can be followed by a leading digit. -/
def tryPrice (rest : List Char) : Option (List Char × List Char) :=
  if (rest.takeWhile jsWs).isEmpty then none
  else tokMatch (rest.dropWhile jsWs)

/-- The JS `.` class (no `s` flag): any character except a line terminator. -/
def dotChar (c : Char) : Bool :=
  !(c = '\n' || c = '\r' || c.val = 0x2028 || c.val = 0x2029)

/--
The lazy name capture `(.+?)`: the name is the shortest nonempty prefix of
`.`-matchable characters such that the rest of the pattern matches the
remainder of the line.  `acc` holds the name characters consumed so far;
returns (name capture, price capture).
-/
def matchFrom (acc : List Char) : List Char → Option (List Char × List Char)
  | [] => none
  | c :: rest =>
    if dotChar c = false then none
    else
      match tryPrice rest with
      | some (tok, _) => some (acc ++ [c], tok)
      | none => matchFrom (acc ++ [c]) rest

/-- Embedding of `trimmedLine.match(priceRegex)`: `some (name, price)` captures
when the anchored regex matches. -/
def matchLine (s : List Char) : Option (List Char × List Char) :=
  matchFrom [] s

/-- The boilerplate keyword alternatives of
`/total|subtotal|change|cash|visa|mastercard|date|time|tax/i`. -/
def keywordList : List (List Char) :=
  ["total".data, "subtotal".data, "change".data, "cash".data, "visa".data,
   "mastercard".data, "date".data, "time".data, "tax".data]

/-- Boolean prefix test on character lists. -/
def isPrefixB : List Char → List Char → Bool
  | [], _ => true
  | _ :: _, [] => false
  | a :: as, b :: bs => a = b && isPrefixB as bs

/-- Boolean substring (contiguous) test: does `needle` occur in the list? -/
def containsSub (needle : List Char) : List Char → Bool
  | [] => isPrefixB needle []
  | b :: bs => isPrefixB needle (b :: bs) || containsSub needle bs

/-- The case-insensitive keyword filter
`/total|subtotal|change|cash|visa|mastercard|date|time|tax/i.test(trimmedLine)`. -/
def keywordHit (l : List Char) : Bool :=
  keywordList.any (fun kw => containsSub kw (l.map Char.toLower))

/-- The trailing-punctuation class `[.|_—-]` of the name cleanup. -/
def trailPunct (c : Char) : Bool :=
  c = '.' || c = '|' || c = '_' || c = '—' || c = '-'

/-- Characters kept by the noise filter `[^a-zA-Z0-9\s%&()-]` (complement). -/
def keepC (c : Char) : Bool :=
  ('a' ≤ c && c ≤ 'z') || ('A' ≤ c && c ≤ 'Z') || isDigitC c || jsWs c ||
  c = '%' || c = '&' || c = '(' || c = ')' || c = '-'

/-- Name cleanup:
`match[1].trim().replace(/[.|_—-]+$/, '').replace(/[^a-zA-Z0-9\s%&()-]/g, '')`. -/
def cleanName (l : List Char) : List Char :=
  (((trimL l).reverse.dropWhile trailPunct).reverse).filter keepC

/-- JavaScript `String.prototype.indexOf` for a single character: the index
of the first occurrence, or `-1`. -/
def idxOfI (c : Char) : List Char → Int
  | [] => -1
  | x :: t =>
    if x = c then 0
    else
      let r := idxOfI c t
      if r = -1 then -1 else r + 1

/-- JavaScript `.replace(',', '.')` with a string pattern: only the first
occurrence is replaced. -/
def replaceFirstComma : List Char → List Char
  | [] => []
  | c :: t => if c = ',' then '.' :: t else c :: replaceFirstComma t

/-- Numeric value of a digit string. -/
def digitsToNat (l : List Char) : Nat :=
  l.foldl (fun n c => 10 * n + (c.toNat - '0'.toNat)) 0

/-- JavaScript `parseFloat`, restricted to the strings the normalizer feeds
it (digits, dots and commas: no sign, exponent or leading whitespace occur).
Parses the longest prefix `digits ['.' digits]`; `none` models `NaN`. -/
def parseFloatQ (l : List Char) : Option ℚ :=
  let ds := l.takeWhile isDigitC
  match l.dropWhile isDigitC with
  | '.' :: r2 =>
    let fs := r2.takeWhile isDigitC
    if ds.isEmpty && fs.isEmpty then none
    else some (mkRat (digitsToNat ds * 10 ^ fs.length + digitsToNat fs) (10 ^ fs.length))
  | _ => if ds.isEmpty then none else some (mkRat (digitsToNat ds) 1)

/--
Price normalization: remove whitespace, then
`if (priceStr.indexOf(',') > priceStr.indexOf('.'))` remove all dots and
replace the first comma by a dot, else remove all commas; `parseFloat` the
result (`none` models `NaN`).
-/
def normalizePrice (raw : List Char) : Option ℚ :=
  let s := raw.filter (fun c => !jsWs c)
  let s2 :=
    if idxOfI ',' s > idxOfI '.' s then
      replaceFirstComma (s.filter (fun c => c ≠ '.'))
    else
      s.filter (fun c => c ≠ ',')
  parseFloatQ s2

/-- A line item `{ name, price }` as pushed onto `items`. -/
structure Item where
  name : List Char
  price : ℚ
deriving DecidableEq, Repr

/-- Convenience constructor used in concrete statements. -/
def mkItem (s : String) (q : ℚ) : Item := ⟨s.data, q⟩

/--
The per-line body of the extraction loop of `parseReceiptImage`: trim, skip
on keyword hit, skip lines shorter than 5, regex match, name cleanup, price
normalization, sanity check, and only then produce the item.
-/
def processLine (line : List Char) : Option Item :=
  let t := trimL line
  if keywordHit t then none
  else if t.length < 5 then none
  else
    match matchLine t with
    | none => none
    | some (rawName, rawPrice) =>
      let nm := cleanName rawName
      match normalizePrice rawPrice with
      | none => none
      | some price =>
        if nm.length > 1 && price > 0 && price < 10000 then some ⟨nm, price⟩ else none

/-- Embedding of `text.split('\n')`. -/
def splitLinesL : List Char → List (List Char)
  | [] => [[]]
  | c :: rest =>
    if c = '\n' then [] :: splitLinesL rest
    else
      match splitLinesL rest with
      | [] => [[c]]
      | l :: ls => (c :: l) :: ls

/-- The whole text-parsing stage: the ordered `items` list built by the loop. -/
def extractItems (text : List Char) : List Item :=
  (splitLinesL text).filterMap processLine

/-!
Claim-side characterizations of the price-token language, for comparison
with the matcher embedded from the source regex.
-/

/-- The language of `(?:[.,\s]?[0-9]{3})*[.,][0-9]{2}`: what follows the 1–3
leading digits of a price token (group separators optional, as in the
source regex). -/
inductive TailShape : List Char → Prop
  | last {c d1 d2} : isDecSepC c = true → isDigitC d1 = true → isDigitC d2 = true →
      TailShape [c, d1, d2]
  | group {c d1 d2 d3 t} : isSepC c = true → isDigitC d1 = true → isDigitC d2 = true →
      isDigitC d3 = true → TailShape t → TailShape (c :: d1 :: d2 :: d3 :: t)
  | groupNoSep {d1 d2 d3 t} : isDigitC d1 = true → isDigitC d2 = true → isDigitC d3 = true →
      TailShape t → TailShape (d1 :: d2 :: d3 :: t)

/-- The language of the whole price token: 1–3 leading digits followed by a
`TailShape` suffix. -/
inductive TokShape : List Char → Prop
  | mk (lead t : List Char) : lead ≠ [] → lead.length ≤ 3 → lead.all isDigitC = true →
      TailShape t → TokShape (lead ++ t)

/-- Suffix language of the token shape exactly as the claim words it: every
3-digit group must carry its separator. -/
def strictTailB : List Char → Bool
  | [c, d1, d2] => isDecSepC c && isDigitC d1 && isDigitC d2
  | c :: d1 :: d2 :: d3 :: rest =>
    isSepC c && isDigitC d1 && isDigitC d2 && isDigitC d3 && strictTailB rest
  | _ => false

/-- Whole-token version of the claim's strict shape: 1–3 leading digits,
then groups each with a mandatory separator, then separator plus 2 digits. -/
def strictTokB : List Char → Bool
  | d1 :: rest =>
    isDigitC d1 &&
      (strictTailB rest ||
        (match rest with
         | d2 :: rest2 =>
           isDigitC d2 &&
             (strictTailB rest2 ||
               (match rest2 with
                | d3 :: rest3 => isDigitC d3 && strictTailB rest3
                | [] => false))
         | [] => false))
  | [] => false

/--
The value the claim's "rightmost separator is the decimal separator" rule
assigns to an accepted price token: in every token of the price-token
language the rightmost `,`-or-`.` is the final separator sitting before the
two cents digits, so the rule reads: strip whitespace, drop every earlier
separator as grouping, and the value is (integer-part digits).(two cents
digits).
-/
def claimPrice (t : List Char) : ℚ :=
  let s := t.filter (fun c => !jsWs c)
  mkRat (digitsToNat ((s.take (s.length - 3)).filter isDigitC) * 100 +
    digitsToNat (s.drop (s.length - 2))) 100

/-!
Pipeline model: `preprocessImage` / Tesseract worker lifecycle / the
try-catch of `parseReceiptImage`.
-/

/-- Abstraction of the input of `preprocessImage`: whether the platform can
decode the image (`img.onerror` fires otherwise) and whether a canvas `2d`
context is available (`getContext` returns null otherwise). -/
structure ImageInput where
  loadable : Bool
  ctxOk : Bool
deriving DecidableEq, Repr

/-- What `preprocessImage` resolves with: either the canvas-processed image
or, when the context is unavailable, the untouched original (`resolve(base64Image)`). -/
inductive OutImage
  | processed (inp : ImageInput)
  | original (inp : ImageInput)
deriving DecidableEq, Repr

/-- The promise `preprocessImage`: rejects when the image cannot be decoded
(`img.onerror = (e) => reject(e)`); falls back to the original only when
`getContext('2d')` returns null; otherwise resolves the processed image. -/
def preprocessImage (inp : ImageInput) : Except Unit OutImage :=
  if inp.loadable then
    if inp.ctxOk then Except.ok (OutImage.processed inp)
    else Except.ok (OutImage.original inp)
  else Except.error ()

/-- Tesseract worker lifecycle events. -/
inductive WorkerEv
  | created
  | terminated
deriving DecidableEq, Repr

/-- The message of the error thrown by the catch block of `parseReceiptImage`. -/
def wrappedErrorMsg : String :=
  "Failed to process image. It might be too large or unclear."

/--
`parseReceiptImage`, with the OCR engine abstracted as `rec` (text result or
failure).  Returns the worker lifecycle events that occurred together with
the outcome.  Control flow follows the source: `preprocessImage` rejection
or a `recognize` rejection jumps to the catch block, which throws the
wrapped error; `worker.terminate()` is reached only when `recognize`
resolves; parsing itself never throws and an empty `items` list is returned
via the normal path.
-/
def parseReceiptImage (rec : OutImage → Except Unit (List Char)) (inp : ImageInput) :
    List WorkerEv × Except String (List Item) :=
  match preprocessImage inp with
  | Except.error _ => ([], Except.error wrappedErrorMsg)
  | Except.ok img =>
    match rec img with
    | Except.error _ => ([WorkerEv.created], Except.error wrappedErrorMsg)
    | Except.ok text =>
      ([WorkerEv.created, WorkerEv.terminated], Except.ok (extractItems text))

/-!
Image normalizer: resize bound and per-pixel grayscale/contrast transform.
-/

/-- The constant `const MAX_WIDTH = 1500`. -/
def MAX_WIDTH : ℕ := 1500

/-- JavaScript `Math.round` on a nonnegative number: the floor of `q + 1/2`,
written on the numerator and denominator so that it evaluates. -/
def jsRound (q : ℚ) : ℤ := (mkRat (2 * q.num + q.den) (2 * q.den)).floor

/-- The resize step: `if (width > MAX_WIDTH) { height = Math.round((height *
MAX_WIDTH) / width); width = MAX_WIDTH; }`. -/
def resizeDims (w h : ℕ) : ℕ × ℕ :=
  if MAX_WIDTH < w then (MAX_WIDTH, (jsRound (mkRat (Int.ofNat (h * MAX_WIDTH)) w)).toNat)
  else (w, h)

/-- The luminosity grayscale `0.2126 * r + 0.7152 * g + 0.0722 * b`. -/
def luminance (r g b : ℚ) : ℚ := 0.2126 * r + 0.7152 * g + 0.0722 * b

/-- The clamp `gray = (gray > 120) ? 255 : (gray < 80) ? 0 : gray`. -/
def contrastClamp (gray : ℚ) : ℚ :=
  if gray > 120 then 255 else if gray < 80 then 0 else gray

/-- The loop body applied to one RGB pixel: all three channels are set to
the clamped luminance. -/
def transformPixel (p : ℚ × ℚ × ℚ) : ℚ × ℚ × ℚ :=
  (contrastClamp (luminance p.1 p.2.1 p.2.2),
   contrastClamp (luminance p.1 p.2.1 p.2.2),
   contrastClamp (luminance p.1 p.2.1 p.2.2))

/-- The grayscale/contrast pass over the image's pixels. -/
def normalizePixels (img : List (ℚ × ℚ × ℚ)) : List (ℚ × ℚ × ℚ) :=
  img.map transformPixel

/-- The six-line end-to-end scenario text of the specification. -/
def sixLineText : List Char :=
  "BURGER PLACE\nBurger........10.00\nFries 5,50\nSUBTOTAL 15.50\nTAX 1.50\nTOTAL 17.00".data

/-!
Helper lemmas.
-/

/-- Inversion for the left-biased choice of the matcher. -/
theorem orE_eq_some {α : Type} {a b : Option α} {x : α} (h : orE a b = some x) :
    a = some x ∨ (a = none ∧ b = some x) := by
  cases a with
  | none => exact Or.inr ⟨rfl, h⟩
  | some y => exact Or.inl h

/-- Inversion of a successful `processLine`: the line passed the keyword and
length gates, the regex matched, the price normalized, the sanity check
held, and the item is built from the cleaned name and normalized price. -/
theorem processLine_eq_some {line : List Char} {it : Item} (h : processLine line = some it) :
    ∃ rawName rawPrice price,
      matchLine (trimL line) = some (rawName, rawPrice) ∧
      normalizePrice rawPrice = some price ∧
      it = ⟨cleanName rawName, price⟩ ∧
      keywordHit (trimL line) = false ∧
      (cleanName rawName).length > 1 ∧ 0 < price ∧ price < 10000 := by
  simp only [processLine] at h
  split at h
  · exact Option.noConfusion h
  next hkw =>
    split at h
    · exact Option.noConfusion h
    next hlen =>
      split at h
      · exact Option.noConfusion h
      next rawName rawPrice hmatch =>
        split at h
        · exact Option.noConfusion h
        next price hnorm =>
          split at h
          next hcond =>
            refine ⟨rawName, rawPrice, price, hmatch, hnorm, ?_, ?_, ?_⟩
            · exact (Option.some.inj h).symm
            · exact (Bool.not_eq_true _).mp hkw
            · simp only [Bool.and_eq_true, decide_eq_true_eq] at hcond
              exact ⟨hcond.1.1, hcond.1.2, hcond.2⟩
          · exact Option.noConfusion h

/-- Soundness of the token-tail matcher: on success it consumed a
`TailShape` prefix and the remainder is all whitespace. -/
theorem tokTailF_sound (fuel : Nat) (s : List Char) :
    ∀ t r, tokTailF fuel s = some (t, r) → s = t ++ r ∧ allWsB r = true ∧ TailShape t := by
  induction fuel, s using tokTailF.induct with
  | case1 fuel c d1 d2 hg =>
    intro t r heq
    simp only [tokTailF, hg, if_true, Option.some.injEq, Prod.mk.injEq] at heq
    obtain ⟨ht, hr⟩ := heq
    subst ht
    subst hr
    simp only [Bool.and_eq_true] at hg
    exact ⟨by simp, rfl, TailShape.last hg.1.1 hg.1.2 hg.2⟩
  | case2 fuel c d1 d2 hg =>
    intro t r heq
    simp only [tokTailF] at heq
    rw [if_neg hg] at heq
    exact Option.noConfusion heq
  | case3 fuel c d1 d2 d3 rest ih2 ih1 =>
    intro t r heq
    simp only [tokTailF] at heq
    rcases orE_eq_some heq with h1 | ⟨_, h2⟩
    · split at h1
      · rw [Option.map_eq_some'] at h1
        obtain ⟨⟨pt, pr⟩, hp, hfp⟩ := h1
        obtain ⟨hrest, hws, hshape⟩ := ih2 pt pr hp
        simp only [Prod.mk.injEq] at hfp
        obtain ⟨ht, hr⟩ := hfp
        subst ht
        subst hr
        rename_i hg
        simp only [Bool.and_eq_true] at hg
        refine ⟨?_, hws, TailShape.group hg.1.1.1 hg.1.1.2 hg.1.2 hg.2 hshape⟩
        simp [hrest]
      · exact Option.noConfusion h1
    · rcases orE_eq_some h2 with h3 | ⟨_, h4⟩
      · split at h3
        · rw [Option.map_eq_some'] at h3
          obtain ⟨⟨pt, pr⟩, hp, hfp⟩ := h3
          obtain ⟨hrest, hws, hshape⟩ := ih1 pt pr hp
          simp only [Prod.mk.injEq] at hfp
          obtain ⟨ht, hr⟩ := hfp
          subst ht
          subst hr
          rename_i hg
          simp only [Bool.and_eq_true] at hg
          refine ⟨?_, hws, TailShape.groupNoSep hg.1.1 hg.1.2 hg.2 hshape⟩
          simp [← hrest]
        · exact Option.noConfusion h3
      · split at h4
        · rename_i hg
          simp only [Option.some.injEq, Prod.mk.injEq] at h4
          obtain ⟨ht, hr⟩ := h4
          subst ht
          subst hr
          simp only [Bool.and_eq_true] at hg
          exact ⟨by simp, hg.2, TailShape.last hg.1.1.1 hg.1.1.2 hg.1.2⟩
        · exact Option.noConfusion h4
  | case4 fuel s h3 h4 =>
    intro t r heq
    match s, heq with
    | [], heq => simp [tokTailF] at heq
    | [a], heq => simp [tokTailF] at heq
    | [a, b], heq => simp [tokTailF] at heq
    | [a, b, c], heq => exact absurd rfl (h3 a b c)
    | a :: b :: c :: d :: rest, heq =>
      match fuel, heq with
      | 0, heq => simp [tokTailF] at heq
      | Nat.succ n, heq => exact absurd rfl (h4 n a b c d rest rfl)

/-- Soundness of the whole-token matcher: on success the input splits into
a `TokShape` token and an all-whitespace remainder. -/
theorem tokMatch_sound {s t r : List Char} (h : tokMatch s = some (t, r)) :
    s = t ++ r ∧ allWsB r = true ∧ TokShape t := by
  match s with
  | [] => simp [tokMatch, orE] at h
  | [a] => simp [tokMatch, orE, tokTail, tokTailF] at h
  | [a, b] => simp [tokMatch, orE, tokTail, tokTailF] at h
  | a :: b :: c :: rest =>
    simp only [tokMatch] at h
    rcases orE_eq_some h with h1 | ⟨_, h2⟩
    · split at h1
      · rw [Option.map_eq_some'] at h1
        obtain ⟨⟨pt, pr⟩, hp, hfp⟩ := h1
        simp only [tokTail] at hp
        obtain ⟨hrest, hws, hshape⟩ := tokTailF_sound _ _ pt pr hp
        simp only [Prod.mk.injEq] at hfp
        obtain ⟨ht, hr⟩ := hfp
        subst ht
        subst hr
        rename_i hg
        simp only [Bool.and_eq_true] at hg
        refine ⟨by simp [hrest], hws, ?_⟩
        have hsh := TokShape.mk [a, b, c] pt (by simp) (by simp)
          (by simp [hg.1.1, hg.1.2, hg.2]) hshape
        simpa using hsh
      · exact Option.noConfusion h1
    · rcases orE_eq_some h2 with h3 | ⟨_, h4⟩
      · split at h3
        · rw [Option.map_eq_some'] at h3
          obtain ⟨⟨pt, pr⟩, hp, hfp⟩ := h3
          simp only [tokTail] at hp
          obtain ⟨hrest, hws, hshape⟩ := tokTailF_sound _ _ pt pr hp
          simp only [Prod.mk.injEq] at hfp
          obtain ⟨ht, hr⟩ := hfp
          subst ht
          subst hr
          rename_i hg
          simp only [Bool.and_eq_true] at hg
          refine ⟨by simp [hrest], hws, ?_⟩
          have hsh := TokShape.mk [a, b] pt (by simp) (by simp)
            (by simp [hg.1, hg.2]) hshape
          simpa using hsh
        · exact Option.noConfusion h3
      · split at h4
        · rw [Option.map_eq_some'] at h4
          obtain ⟨⟨pt, pr⟩, hp, hfp⟩ := h4
          simp only [tokTail] at hp
          obtain ⟨hrest, hws, hshape⟩ := tokTailF_sound _ _ pt pr hp
          simp only [Prod.mk.injEq] at hfp
          obtain ⟨ht, hr⟩ := hfp
          subst ht
          subst hr
          rename_i hg
          refine ⟨by simp [hrest], hws, ?_⟩
          have hsh := TokShape.mk [a] pt (by simp) (by simp) (by simp [hg]) hshape
          simpa using hsh
        · exact Option.noConfusion h4

/-- Soundness of the `\s+` + token step: the text after the name capture is
a nonempty whitespace run, the token, and trailing whitespace. -/
theorem tryPrice_sound {rest tok r : List Char} (h : tryPrice rest = some (tok, r)) :
    ∃ w, rest = w ++ tok ++ r ∧ w ≠ [] ∧ allWsB w = true ∧ allWsB r = true ∧ TokShape tok := by
  simp only [tryPrice] at h
  split at h
  · exact Option.noConfusion h
  · rename_i hne
    obtain ⟨hsplit, hws, hshape⟩ := tokMatch_sound h
    refine ⟨rest.takeWhile jsWs, ?_, ?_, ?_, hws, hshape⟩
    · rw [List.append_assoc, ← hsplit, List.takeWhile_append_dropWhile]
    · simpa [List.isEmpty_iff] using hne
    · simp only [allWsB]
      rw [List.all_eq_true]
      intro x hx
      exact List.mem_takeWhile_imp hx

/-- Soundness of the lazy name capture: a successful match decomposes the
line into nonempty name, nonempty whitespace, token, and trailing
whitespace, with the token in the token language. -/
theorem matchFrom_sound :
    ∀ (rest acc nm tok : List Char), matchFrom acc rest = some (nm, tok) →
      ∃ d w r, nm = acc ++ d ∧ d ≠ [] ∧ rest = d ++ w ++ tok ++ r ∧
        w ≠ [] ∧ allWsB w = true ∧ allWsB r = true ∧ TokShape tok := by
  intro rest
  induction rest with
  | nil =>
    intro acc nm tok h
    simp [matchFrom] at h
  | cons c rest ih =>
    intro acc nm tok h
    simp only [matchFrom] at h
    split at h
    · exact Option.noConfusion h
    · split at h
      · rename_i tok' r' htp
        simp only [Option.some.injEq, Prod.mk.injEq] at h
        obtain ⟨hnm, htok⟩ := h
        subst hnm
        subst htok
        obtain ⟨w, hr, hwne, hwws, hrws, hshape⟩ := tryPrice_sound htp
        exact ⟨[c], w, _, rfl, by simp, by simp [hr], hwne, hwws, hrws, hshape⟩
      · obtain ⟨d, w, r, hnm, hdne, hrest, hwne, hwws, hrws, hshape⟩ :=
          ih (acc ++ [c]) nm tok h
        refine ⟨c :: d, w, r, by simp [hnm], by simp, by simp [hrest], hwne, hwws, hrws, hshape⟩

/-!
Claim theorems.
-/

/--
Claim C1.  The claim (and the source's own comments "Assumption: The LAST
separator is the decimal separator" / "Check if comma is the last
separator") say the rightmost of `,` and `.` in the accepted token is the
decimal separator.  The code instead compares the FIRST occurrences
(`indexOf`).  The two rules agree on the claim's four examples (proved
below), but on the accepted interleaved token `1,234.567,89` the first
comma precedes the first dot, so the code strips all commas and parses
1234.56789, while the rightmost separator is the final comma, whose rule
yields 1234567.89.
-/
theorem c1_first_index_not_rightmost :
    extractItems "Coffee 1.234,56".data = [mkItem "Coffee" (mkRat 30864 25)] ∧
    extractItems "Coffee 1,234.56".data = [mkItem "Coffee" (mkRat 30864 25)] ∧
    extractItems "Coffee 10,50".data = [mkItem "Coffee" (mkRat 21 2)] ∧
    extractItems "Coffee 10.00".data = [mkItem "Coffee" 10] ∧
    matchLine (trimL "Coffee 1,234.567,89".data) =
      some ("Coffee".data, "1,234.567,89".data) ∧
    normalizePrice "1,234.567,89".data = some (mkRat 123456789 100000) ∧
    claimPrice "1,234.567,89".data = mkRat 123456789 100 ∧
    normalizePrice "1,234.567,89".data ≠ some (claimPrice "1,234.567,89".data) := by
  refine ⟨by decide, by decide, by decide, by decide, by decide, by decide, by decide, by decide⟩

/--
Claim C2 counterexample.  On the six-line scenario the code extracts only
`Fries 5.50`: the line `Burger........10.00` has no whitespace between the
dot leaders and the price, and the pattern's mandatory `\s+` separator
therefore never matches it, so the claimed two-item result is wrong.
-/
theorem c2_counterexample :
    extractItems sixLineText = [mkItem "Fries" (mkRat 11 2)] ∧
    extractItems sixLineText ≠ [mkItem "Burger" 10, mkItem "Fries" (mkRat 11 2)] := by
  exact ⟨by decide, by decide⟩

/--
Claim C2 amended: the six-line scenario yields exactly the one-item result
`[{name "Fries", price 5.50}]`; the three boilerplate lines are rejected by
the keyword filter, the header line has no trailing price, and
`Burger........10.00` is rejected because the name+price pattern requires
whitespace before the price token.
-/
theorem c2_amended :
    extractItems sixLineText = [mkItem "Fries" (mkRat 11 2)] ∧
    processLine "Burger........10.00".data = none ∧
    processLine "BURGER PLACE".data = none ∧
    processLine "SUBTOTAL 15.50".data = none ∧
    processLine "TAX 1.50".data = none ∧
    processLine "TOTAL 17.00".data = none := by
  exact ⟨by decide, by decide, by decide, by decide, by decide, by decide⟩

/--
Claim C4: every item ever appended satisfies the sanity predicate at
creation (cleaned-name length > 1, a validly parsed price, 0 < price <
10000), and the boundary behavior: price exactly 10000 rejected, 9999.99
accepted, cleaned name of length 1 rejected, length 2 accepted.
-/
theorem c4_sanity_invariant :
    (∀ (text : List Char) (it : Item), it ∈ extractItems text →
      it.name.length > 1 ∧ 0 < it.price ∧ it.price < 10000) ∧
    extractItems "Item 10000.00".data = [] ∧
    extractItems "Item 9999.99".data = [mkItem "Item" (mkRat 999999 100)] ∧
    extractItems "A# 5.00".data = [] ∧
    extractItems "AB 5.00".data = [mkItem "AB" 5] := by
  refine ⟨?_, by decide, by decide, by decide, by decide⟩
  intro text it hmem
  obtain ⟨line, _, hproc⟩ := List.mem_filterMap.mp hmem
  obtain ⟨rawName, rawPrice, price, _, _, hit, _, hname, hpos, hlt⟩ :=
    processLine_eq_some hproc
  subst hit
  exact ⟨hname, hpos, hlt⟩

/-- Claim C4 witness: the invariant applied to the item extracted from
`AB 5.00`. -/
theorem c4_sanity_invariant_witness :
    (mkItem "AB" 5).name.length > 1 ∧ 0 < (mkItem "AB" 5).price ∧
      (mkItem "AB" 5).price < 10000 :=
  c4_sanity_invariant.1 "AB 5.00".data (mkItem "AB" 5) (by decide)

/--
Claim C5: a line whose trimmed form matches the case-insensitive keyword
filter produces no item — the filter guard is the first test in the loop
body and short-circuits before the pattern match and sanity validation, so
the rejection holds regardless of both.
-/
theorem c5_keyword_filter_rejects (line : List Char)
    (h : keywordHit (trimL line) = true) : processLine line = none := by
  simp only [processLine, h, if_true]

/-- Claim C5 witness: the filter rejects `TOTAL 17.00`. -/
theorem c5_keyword_filter_rejects_witness :
    keywordHit (trimL "TOTAL 17.00".data) = true ∧
      processLine "TOTAL 17.00".data = none :=
  ⟨by decide, c5_keyword_filter_rejects _ (by decide)⟩

/--
Claim C7 counterexample.  The claim says an image-load failure is absorbed
and OCR falls back to the unmodified original.  In the code `img.onerror`
rejects the `preprocessImage` promise, the rejection lands in the catch
block of `parseReceiptImage`, and the whole call rejects with the wrapped
error: no OCR runs at all, even with an OCR engine that would have
recognized an item from the original image.
-/
theorem c7_counterexample :
    parseReceiptImage (fun _ => Except.ok "AB 5.00".data) ⟨false, true⟩ =
      ([], Except.error wrappedErrorMsg) ∧
    extractItems "AB 5.00".data = [mkItem "AB" 5] ∧
    parseReceiptImage (fun _ => Except.ok "AB 5.00".data) ⟨false, true⟩ ≠
      ([WorkerEv.created, WorkerEv.terminated], Except.ok [mkItem "AB" 5]) := by
  refine ⟨rfl, by decide, ?_⟩
  intro hcontra
  have hfst : ([] : List WorkerEv) = [WorkerEv.created, WorkerEv.terminated] :=
    congrArg Prod.fst hcontra
  exact List.noConfusion hfst

/--
Claim C7 amended: an image-load failure is not absorbed — for every OCR
engine, `parseReceiptImage` on an undecodable input rejects with the
wrapped error and never reaches OCR.  The only internal fallback to the
unmodified original image is the null-canvas-context path, on which OCR
does run against the original (second conjunct).
-/
theorem c7_amended_load_error :
    (∀ (rec : OutImage → Except Unit (List Char)) (b : Bool),
      parseReceiptImage rec ⟨false, b⟩ = ([], Except.error wrappedErrorMsg)) ∧
    (∀ (rec : OutImage → Except Unit (List Char)) (text : List Char),
      rec (OutImage.original ⟨true, false⟩) = Except.ok text →
      parseReceiptImage rec ⟨true, false⟩ =
        ([WorkerEv.created, WorkerEv.terminated], Except.ok (extractItems text))) := by
  constructor
  · intro rec b
    rfl
  · intro rec text h
    simp [parseReceiptImage, preprocessImage, h]

/-- Claim C7 amended witness. -/
theorem c7_amended_load_error_witness :
    parseReceiptImage (fun _ => Except.ok "Pie 2.00".data) ⟨false, false⟩ =
      ([], Except.error wrappedErrorMsg) ∧
    parseReceiptImage (fun _ => Except.ok "Pie 2.00".data) ⟨true, false⟩ =
      ([WorkerEv.created, WorkerEv.terminated],
        Except.ok (extractItems "Pie 2.00".data)) :=
  ⟨c7_amended_load_error.1 (fun _ => Except.ok "Pie 2.00".data) false,
   c7_amended_load_error.2 (fun _ => Except.ok "Pie 2.00".data) "Pie 2.00".data rfl⟩

/--
Claim C9.  The claim says the OCR worker is released on every exit path.
The code awaits `worker.terminate()` only on the straight-line path; when
`worker.recognize` rejects, control jumps to the catch block and
`terminate` is never reached, so the worker leaks on the OCR-failure exit
path.  The success path does terminate the worker (last conjunct).
-/
theorem c9_worker_leaks_on_ocr_failure :
    parseReceiptImage (fun _ => Except.error ()) ⟨true, true⟩ =
      ([WorkerEv.created], Except.error wrappedErrorMsg) ∧
    WorkerEv.terminated ∉ [WorkerEv.created] ∧
    (parseReceiptImage (fun _ => Except.ok "Fries 5,50".data) ⟨true, true⟩).1 =
      [WorkerEv.created, WorkerEv.terminated] := by
  exact ⟨rfl, by decide, rfl⟩

/--
Claim C6: zero extracted items is not an error.  Whenever preprocessing and
OCR succeed and the text yields no items, `parseReceiptImage` returns the
empty item list through the normal path — the `console.warn` diagnostic (a
sample of the raw text) is emitted outside the returned value and alters
neither control flow nor the result.  Empty text is one such input.
-/
theorem c6_empty_extraction :
    (∀ (rec : OutImage → Except Unit (List Char)) (inp : ImageInput)
        (img : OutImage) (text : List Char),
      preprocessImage inp = Except.ok img → rec img = Except.ok text →
      extractItems text = [] →
      parseReceiptImage rec inp =
        ([WorkerEv.created, WorkerEv.terminated], Except.ok [])) ∧
    extractItems "".data = [] := by
  refine ⟨?_, by decide⟩
  intro rec inp img text h1 h2 h3
  simp [parseReceiptImage, h1, h2, h3]

/-- Claim C6 witness: garbage text with no price-shaped line returns
`ok []`, not an error. -/
theorem c6_empty_extraction_witness :
    parseReceiptImage (fun _ => Except.ok "no receipt here".data) ⟨true, true⟩ =
      ([WorkerEv.created, WorkerEv.terminated], Except.ok []) :=
  c6_empty_extraction.1 (fun _ => Except.ok "no receipt here".data) ⟨true, true⟩
    (OutImage.processed ⟨true, true⟩) "no receipt here".data rfl rfl (by decide)

/--
Claim C8: the normalizer caps the width at 1500 with proportionally scaled,
rounded height (4000×3000 becomes 1500×1125), does not resize when the
width is already within the bound, and clamps every pixel to 255 when its
luminance exceeds 120, to 0 when it is below 80, and leaves it unchanged in
[80,120]; the luminosity weights sum to 1, so the output pixel's luminance
is exactly the clamped gray value.
-/
theorem c8_image_normalizer :
    resizeDims 4000 3000 = (1500, 1125) ∧
    (∀ w h : ℕ, w ≤ MAX_WIDTH → resizeDims w h = (w, h)) ∧
    (∀ w h : ℕ, (resizeDims w h).1 ≤ MAX_WIDTH) ∧
    (∀ r g b : ℚ, 120 < luminance r g b → transformPixel (r, g, b) = (255, 255, 255)) ∧
    (∀ r g b : ℚ, luminance r g b < 80 → transformPixel (r, g, b) = (0, 0, 0)) ∧
    (∀ r g b : ℚ, 80 ≤ luminance r g b → luminance r g b ≤ 120 →
      transformPixel (r, g, b) = (luminance r g b, luminance r g b, luminance r g b)) ∧
    (∀ g : ℚ, luminance g g g = g) ∧
    (∀ img : List (ℚ × ℚ × ℚ), normalizePixels img = img.map transformPixel) := by
  refine ⟨by decide, ?_, ?_, ?_, ?_, ?_, ?_, fun _ => rfl⟩
  · intro w h hle
    simp [resizeDims, Nat.not_lt.mpr hle]
  · intro w h
    unfold resizeDims
    split
    · exact Nat.le_refl _
    · next hlt => exact Nat.not_lt.mp hlt
  · intro r g b h
    simp [transformPixel, contrastClamp, h]
  · intro r g b h
    have h1 : ¬ (120 : ℚ) < luminance r g b := by linarith
    simp [transformPixel, contrastClamp, h, h1]
  · intro r g b h1 h2
    have h3 : ¬ (120 : ℚ) < luminance r g b := not_lt.mpr h2
    have h4 : ¬ luminance r g b < 80 := not_lt.mpr h1
    simp [transformPixel, contrastClamp, h3, h4]
  · intro g
    simp only [luminance]
    ring

/-- Claim C8 witness: an 800-wide image is untouched, and a bright pixel
(luminance 200) is clamped to white. -/
theorem c8_image_normalizer_witness :
    resizeDims 800 600 = (800, 600) ∧ transformPixel (200, 200, 200) = (255, 255, 255) := by
  refine ⟨c8_image_normalizer.2.1 800 600 (by norm_num [MAX_WIDTH]), ?_⟩
  refine c8_image_normalizer.2.2.2.1 200 200 200 ?_
  have h := c8_image_normalizer.2.2.2.2.2.2.1 200
  rw [h]
  norm_num

/--
Claim C10: the keyword filter is a substring test (`RegExp.test` with no
word boundaries), so any line containing a keyword inside a longer word is
skipped before the pattern match, and no item is produced from it.
-/
theorem c10_substring_keyword_rejects (line : List Char)
    (h : ∃ kw, kw ∈ keywordList ∧ containsSub kw ((trimL line).map Char.toLower) = true) :
    processLine line = none := by
  obtain ⟨kw, hmem, hsub⟩ := h
  have hk : keywordHit (trimL line) = true := by
    unfold keywordHit
    exact List.any_eq_true.mpr ⟨kw, hmem, hsub⟩
  simp only [processLine, hk, if_true]

/-- Claim C10 witness: `Taxi 4.50` (contains `tax`) and `Dates 3.00`
(contains `date`) are genuine item lines — the pattern matches them and
their cleaned names and prices would pass sanity — yet both are rejected. -/
theorem c10_substring_keyword_rejects_witness :
    processLine "Taxi 4.50".data = none ∧ processLine "Dates 3.00".data = none ∧
    matchLine (trimL "Taxi 4.50".data) = some ("Taxi".data, "4.50".data) ∧
    matchLine (trimL "Dates 3.00".data) = some ("Dates".data, "3.00".data) ∧
    (cleanName "Taxi".data).length > 1 ∧ normalizePrice "4.50".data = some (mkRat 9 2) ∧
    (cleanName "Dates".data).length > 1 ∧ normalizePrice "3.00".data = some 3 :=
  ⟨c10_substring_keyword_rejects _ ⟨"tax".data, by decide, by decide⟩,
   c10_substring_keyword_rejects _ ⟨"date".data, by decide, by decide⟩,
   by decide, by decide, by decide, by decide, by decide, by decide⟩

/--
Claim C3 counterexample.  The claim's token grammar makes each 3-digit
group's separator mandatory, but in the source regex the separator is
optional (`[.,\s]?`): the token `1234.56`, whose 3-digit group `234` has no
separator, is not in the claim's strict language, yet the extractor accepts
the line `Widget 1234.56` and produces an item from it.
-/
theorem c3_counterexample :
    extractItems "Widget 1234.56".data = [mkItem "Widget" (mkRat 30864 25)] ∧
    matchLine (trimL "Widget 1234.56".data) = some ("Widget".data, "1234.56".data) ∧
    strictTokB "1234.56".data = false ∧
    strictTokB "1.234,56".data = true := by
  exact ⟨by decide, by decide, by decide, by decide⟩

/--
Claim C3 amended: a line produces an item only if its trimmed form ends,
up to trailing whitespace, in a price token of the regex's shape — 1–3
leading digits, zero or more 3-digit groups each preceded by an OPTIONAL
separator (dot, comma, or whitespace), and a mandatory final dot-or-comma
followed by exactly two digits — preceded by mandatory whitespace and a
nonempty name.  A token whose decimal part is not exactly two digits still
never matches (last two conjuncts).
-/
theorem c3_amended_trailing_token :
    (∀ (line : List Char) (it : Item), processLine line = some it →
      ∃ nm w tok r, trimL line = nm ++ w ++ tok ++ r ∧ nm ≠ [] ∧ w ≠ [] ∧
        allWsB w = true ∧ allWsB r = true ∧ TokShape tok) ∧
    processLine "Widget 10.5".data = none ∧
    processLine "Widget 10.555".data = none := by
  refine ⟨?_, by decide, by decide⟩
  intro line it h
  obtain ⟨rawName, rawPrice, price, hmatch, _, _, _, _, _, _⟩ := processLine_eq_some h
  simp only [matchLine] at hmatch
  obtain ⟨d, w, r, hnm, hdne, hrest, hwne, hwws, hrws, hshape⟩ :=
    matchFrom_sound (trimL line) [] rawName rawPrice hmatch
  exact ⟨d, w, rawPrice, r, hrest, hdne, hwne, hwws, hrws, hshape⟩

/-- Claim C3 amended witness: the decomposition exists for the accepted
line `AB 10.00`. -/
theorem c3_amended_trailing_token_witness :
    ∃ nm w tok r, trimL "AB 10.00".data = nm ++ w ++ tok ++ r ∧ nm ≠ [] ∧ w ≠ [] ∧
      allWsB w = true ∧ allWsB r = true ∧ TokShape tok :=
  c3_amended_trailing_token.1 "AB 10.00".data (mkItem "AB" 10) (by decide)

end Receipt
